import Mathlib

/-!
Verification of the generation-record aggregation and derived-view layer of the
floor-plans gallery (src/services/s3_service.py, src/app.py,
src/utils/helpers.py), shallowly embedded over a JSON value model.  Python
dictionaries are association lists, numbers are rationals, and every
caught-exception path is made explicit: `Except` models code that can raise
past its own handlers, `Option`/skipping models exceptions that the source
swallows per record.
-/

namespace Gallery

mutual
/-- JSON values as produced by `json.loads`.  Numbers are modelled as rationals
(which identifies Python's `1 == 1.0`); Python's remaining cross-type equality
quirk (`True == 1`) is not identified, which is irrelevant to the string-valued
fields the dashboard compares. -/
inductive Json where
  | null : Json
  | bool (b : Bool) : Json
  | num (v : ℚ) : Json
  | str (s : String) : Json
  | arr (elems : JsonList) : Json
  | obj (fields : JsonFields) : Json
deriving DecidableEq

/-- A JSON array's element list. -/
inductive JsonList where
  | nil : JsonList
  | cons (head : Json) (tail : JsonList) : JsonList
deriving DecidableEq

/-- A JSON object's ordered field list (Python dicts preserve insertion order;
`json.loads` never yields duplicate keys). -/
inductive JsonFields where
  | nil : JsonFields
  | cons (key : String) (val : Json) (tail : JsonFields) : JsonFields
deriving DecidableEq
end

namespace JsonFields

/-- First binding of a key (Python dict lookup). -/
def lookup : JsonFields → String → Option Json
  | .nil, _ => none
  | .cons k' v rest, k => if k' = k then some v else lookup rest k

/-- `k in d` for a dict. -/
def hasKey (fs : JsonFields) (k : String) : Bool :=
  (fs.lookup k).isSome

def isEmpty : JsonFields → Bool
  | .nil => true
  | .cons _ _ _ => false

/-- The keys in order (what iterating / joining a Python dict sees). -/
def keys : JsonFields → List String
  | .nil => []
  | .cons k _ rest => k :: keys rest

/-- `d[k] = v`: overwrite the first binding of `k` in place, else append
(Python dict assignment keeps the original key position). -/
def setKey : JsonFields → String → Json → JsonFields
  | .nil, k, v => .cons k v .nil
  | .cons k' v' rest, k, v =>
      if k' = k then .cons k v rest else .cons k' v' (setKey rest k v)

/-- Number of keys (`len(d)`); duplicate keys cannot arise from `json.loads`. -/
def size : JsonFields → Nat
  | .nil => 0
  | .cons _ _ rest => 1 + size rest

end JsonFields

namespace JsonList

def length : JsonList → Nat
  | .nil => 0
  | .cons _ rest => 1 + length rest

def isEmpty : JsonList → Bool
  | .nil => true
  | .cons _ _ => false

/-- `x in xs` for a list (Python `==` between a string and a non-string is
`False`, so plain structural equality is the right test for the string
membership checks the source performs). -/
def elemV : JsonList → Json → Bool
  | .nil, _ => false
  | .cons h rest, x => h = x || elemV rest x

/-- All elements as Lean strings, `none` if some element is not a string
(where Python `' '.join(...)` would raise `TypeError`). -/
def asStrings : JsonList → Option (List String)
  | .nil => some []
  | .cons (.str s) rest => (asStrings rest).map (s :: ·)
  | .cons _ _ => none

end JsonList

namespace Json

/-- Python truthiness of a JSON value (`if metadata:`, `if comparison:`). -/
def truthy : Json → Bool
  | .null => false
  | .bool b => b
  | .num v => v ≠ 0
  | .str s => s ≠ ""
  | .arr xs => !xs.isEmpty
  | .obj fs => !fs.isEmpty

/-- `d[k]` on an object: `none` when the key is absent (KeyError) or the
receiver is not a dict (TypeError); its callers catch both. -/
def getItem : Json → String → Option Json
  | .obj fs, k => fs.lookup k
  | _, _ => none

/-- `d.get(k, default)` on a dict; on a non-dict Python raises
AttributeError, which the callers that use this total version only reach
under well-formedness hypotheses (the `Except` variants model the raise). -/
def objGetD (g : Json) (k : String) (default : Json) : Json :=
  match g with
  | .obj fs => (fs.lookup k).getD default
  | _ => default

/-- Whether an object has a key (`k in d` on a dict, `false` on non-dicts,
where Python's `in` either raises or tests something other than fields). -/
def hasKey (g : Json) (k : String) : Bool :=
  match g with
  | .obj fs => fs.hasKey k
  | _ => false

/-- A value Python accepts as a dict key / set element (hashable). -/
def hashable : Json → Bool
  | .arr _ => false
  | .obj _ => false
  | _ => true

end Json

/-- Does `pat` occur as a contiguous substring of `s` (Python's `pat in s`)? -/
def strOccurs (pat s : String) : Bool :=
  s.toList.tails.any (fun t => pat.toList.isPrefixOf t)

/-- Python's `str.lower()` (ASCII case mapping; the records' field values and
queries are ASCII, where Python's Unicode lowering agrees).  Defined by
structural recursion over the character list so that concrete witnesses
evaluate inside the kernel. -/
def pyLower (s : String) : String :=
  String.mk (s.toList.map Char.toLower)

/-- Python's `str.endswith(suf)`. -/
def strEndsWith (s suf : String) : Bool :=
  suf.toList.isSuffixOf s.toList

/-- Python's `' '.join(parts)`. -/
def joinSpace : List String → String
  | [] => ""
  | [s] => s
  | s :: rest => s ++ " " ++ joinSpace rest

/-- Python's `field in container`: key test on dicts, substring test on
strings, element test on lists, `TypeError` otherwise. -/
def pyContains (container : Json) (f : String) : Except String Bool :=
  match container with
  | .obj fs => .ok (fs.hasKey f)
  | .str s => .ok (strOccurs f s)
  | .arr xs => .ok (xs.elemV (.str f))
  | _ => .error "TypeError: argument not iterable"

/-! ## Metadata store client (`S3GalleryService`)

The store itself is abstracted by two functions: `load` models
`_load_metadata_from_s3`, which catches every per-object failure and returns
`None`; `ex` models `_object_exists`, which maps any access error to `False`. -/

/-- The fixed host marker used to strip full URLs down to storage keys. -/
def s3Marker : String := ".s3.amazonaws.com/"

/-- The last element of Python's `s.split(m)` for a non-empty separator `m`:
scan left to right; at a separator occurrence restart the current element
after it, otherwise advance one character; the final element is what remains
after the last (non-overlapping) occurrence.  The fuel argument (instantiated
with `s.length`, an upper bound on the number of steps) keeps the recursion
structural so that concrete inputs evaluate inside the kernel. -/
def lastSplitAux (m : List Char) : Nat → List Char → List Char
  | 0, s => s
  | fuel + 1, s =>
    if (s.tails.any (fun t => m.isPrefixOf t)) && !m.isEmpty then
      if m.isPrefixOf s then lastSplitAux m fuel (s.drop m.length)
      else lastSplitAux m fuel s.tail
    else s

/-- `url.split('.s3.amazonaws.com/')[-1]`: the suffix after the last
(non-overlapping, left-to-right) occurrence of the marker. -/
def stripS3Url (url : String) : String :=
  String.mk (lastSplitAux s3Marker.toList url.toList.length url.toList)

/-- Embedding of `_get_image_key_from_metadata`: try the `.png` key, then the
`.jpg` key, then a URL recorded at `s3_paths.main_image` — which is used only
when it contains the host marker — else `None`.  Every exception inside the
body (missing keys, non-dict `s3_paths`, non-string `main_image`) is caught by
the function's own handler and yields `None`.  Records whose
`generation_id`/`approach` values are present but not strings are outside the
modelled record shape (Python would interpolate their `str()` form into the
candidate key); the spec's data model declares both fields strings, and every
theorem below stays within that shape. -/
def imageKeyFromMetadata (ex : String → Bool) (md : Json) : Option String :=
  match md.getItem "generation_id", md.getItem "approach" with
  | some (.str gid), some (.str ap) =>
    let png := "images/by_approach/" ++ ap ++ "/" ++ gid ++ ".png"
    if ex png then some png
    else
      let jpg := "images/by_approach/" ++ ap ++ "/" ++ gid ++ ".jpg"
      if ex jpg then some jpg
      else
        match md.getItem "s3_paths" with
        | some (.obj sp) =>
          match sp.lookup "main_image" with
          | some (.str url) =>
              if strOccurs s3Marker url then some (stripS3Url url) else none
          | _ => none
        | _ => none
  | _, _ => none

/-- Embedding of `_validate_generation_metadata`:
`all(field in metadata for field in required_fields)`, with Python's
short-circuit and its possible `TypeError` on non-iterable metadata. -/
def validateGenerationMetadata (md : Json) : Except String Bool :=
  match pyContains md "generation_id" with
  | .error e => .error e
  | .ok false => .ok false
  | .ok true =>
    match pyContains md "approach" with
    | .error e => .error e
    | .ok false => .ok false
    | .ok true => pyContains md "model_config"

/-- The three required fields tested as one object-shaped predicate: the
record is a JSON object carrying `generation_id`, `approach` and
`model_config`. -/
def validRecord (md : Json) : Bool :=
  md.hasKey "generation_id" && md.hasKey "approach" && md.hasKey "model_config"

def optStrToJson : Option String → Json
  | some s => .str s
  | none => .null

/-- One key's processing inside the listing loop of `get_all_generations` (the
body guarded by `key.endswith('.json')`): load, truthiness test, validation,
then enrichment with `metadata_key` and `image_key`.  Every exception raised in
this region is caught by the per-record handler and means "skip" (`none`);
item assignment on a non-dict record raises `TypeError`, hence only objects
survive enrichment. -/
def processGenerationKey (ex : String → Bool) (load : String → Option Json)
    (key : String) : Option Json :=
  match load key with
  | none => none
  | some md =>
    if md.truthy then
      match validateGenerationMetadata md with
      | .error _ => none
      | .ok false => none
      | .ok true =>
        match md with
        | .obj fs =>
          let md1 := Json.obj (fs.setKey "metadata_key" (.str key))
          let md2 :=
            match md1 with
            | .obj fs1 =>
                Json.obj (fs1.setKey "image_key"
                  (optStrToJson (imageKeyFromMetadata ex md1)))
            | _ => md1
          some md2
        | _ => none
    else none

/-- The accumulating loop of `get_all_generations` over all listed keys. -/
def generationsLoop (ex : String → Bool) (load : String → Option Json) :
    List Json → List String → List Json
  | acc, [] => acc
  | acc, k :: ks =>
      generationsLoop ex load
        (if strEndsWith k ".json" then
          match processGenerationKey ex load k with
          | some md => acc ++ [md]
          | none => acc
        else acc) ks

/-- Result of `get_all_generations`: the collected records, plus the hard
error surfaced via `st.error` by the outermost handler when the listing
itself fails (in which case the record list is empty). -/
structure CatalogResult where
  records : List Json
  hardError : Option String
deriving DecidableEq

/-- Embedding of `get_all_generations`.  The paginated listing is abstracted
as `listing : Except String (List String)` carrying all pages' keys in order;
a listing failure reaches the outermost handler, which surfaces the error and
returns an empty collection.  Per-record work never raises past its own
handler, so a successful listing never produces a hard error. -/
def getAllGenerations (ex : String → Bool) (load : String → Option Json)
    (listing : Except String (List String)) : CatalogResult :=
  match listing with
  | .error e => ⟨[], some e⟩
  | .ok keys => ⟨generationsLoop ex load [] keys, none⟩

/-! ### Loop characterization -/

theorem generationsLoop_eq (ex : String → Bool) (load : String → Option Json)
    (keys : List String) (acc : List Json) :
    generationsLoop ex load acc keys =
      acc ++ (keys.filter (fun k => strEndsWith k ".json")).filterMap
        (processGenerationKey ex load) := by
  induction keys generalizing acc with
  | nil => simp [generationsLoop]
  | cons k ks ih =>
    simp only [generationsLoop, List.filter_cons]
    by_cases h : strEndsWith k ".json"
    · simp only [h, if_pos]
      cases hp : processGenerationKey ex load k with
      | none => simp [ih, List.filterMap_cons, hp]
      | some md => simp [ih, List.filterMap_cons, hp]
    · simp [h, ih]

theorem length_filterMap_eq_length_filter {α β : Type} (f : α → Option β)
    (l : List α) :
    (l.filterMap f).length = (l.filter (fun x => (f x).isSome)).length := by
  induction l with
  | nil => rfl
  | cons x xs ih =>
    cases h : f x with
    | none => simp [List.filterMap_cons, List.filter_cons, h, ih]
    | some y => simp [List.filterMap_cons, List.filter_cons, h, ih]

theorem validate_obj_eq (fs : JsonFields) :
    validateGenerationMetadata (.obj fs) = .ok (validRecord (.obj fs)) := by
  simp only [validateGenerationMetadata, pyContains, validRecord, Json.hasKey]
  cases fs.hasKey "generation_id" <;> cases fs.hasKey "approach" <;> simp

theorem validRecord_obj_nonempty (fs : JsonFields)
    (h : validRecord (.obj fs) = true) : fs.isEmpty = false := by
  cases fs with
  | nil => simp [validRecord, Json.hasKey, JsonFields.hasKey,
      JsonFields.lookup] at h
  | cons k v rest => rfl

/-- A record kept by `processGenerationKey` is exactly a successfully loaded
JSON object with the three required fields. -/
theorem processGenerationKey_isSome_iff (ex : String → Bool)
    (load : String → Option Json) (k : String) :
    (processGenerationKey ex load k).isSome = true ↔
      ∃ md, load k = some md ∧ validRecord md = true := by
  unfold processGenerationKey
  cases hl : load k with
  | none => simp [hl]
  | some md =>
    simp only [hl, Option.some.injEq]
    have hiff : (∃ md', md = md' ∧ validRecord md' = true) ↔
        validRecord md = true := by
      constructor
      · rintro ⟨md', rfl, h⟩; exact h
      · intro h; exact ⟨md, rfl, h⟩
    rw [hiff]
    cases md with
    | null => simp [Json.truthy, validRecord, Json.hasKey]
    | bool b =>
      cases b <;>
        simp [Json.truthy, validateGenerationMetadata, pyContains,
          validRecord, Json.hasKey]
    | num v =>
      by_cases hv : v = 0 <;>
        simp [Json.truthy, hv, validateGenerationMetadata, pyContains,
          validRecord, Json.hasKey]
    | str s =>
      by_cases hs : s = "" <;>
        cases h1 : strOccurs "generation_id" s <;>
        cases h2 : strOccurs "approach" s <;>
        cases h3 : strOccurs "model_config" s <;>
        simp [Json.truthy, hs, validateGenerationMetadata, pyContains,
          h1, h2, h3, validRecord, Json.hasKey]
    | arr xs =>
      cases hx : xs.isEmpty <;>
        cases h1 : xs.elemV (.str "generation_id") <;>
        cases h2 : xs.elemV (.str "approach") <;>
        cases h3 : xs.elemV (.str "model_config") <;>
        simp [Json.truthy, hx, validateGenerationMetadata, pyContains,
          h1, h2, h3, validRecord, Json.hasKey]
    | obj fs =>
      rw [Json.truthy, validate_obj_eq]
      cases hv : validRecord (.obj fs) with
      | true => simp [validRecord_obj_nonempty fs hv]
      | false =>
        cases he : fs.isEmpty <;> simp [he]

/-- C1: over any listing of metadata keys, `get_all_generations` retains
exactly the JSON-suffixed keys whose loaded record is an object containing
`generation_id`, `approach` and `model_config`; a record missing any of them
contributes nothing; and the retained count plus the excluded count equals the
number of JSON-suffixed keys listed. -/
theorem buildCatalog_retains_exactly_valid (ex : String → Bool)
    (load : String → Option Json) (keys : List String) :
    ((getAllGenerations ex load (.ok keys)).records =
        (keys.filter (fun k => strEndsWith k ".json")).filterMap
          (processGenerationKey ex load)) ∧
    (∀ k : String, (processGenerationKey ex load k).isSome = true ↔
        ∃ md, load k = some md ∧ validRecord md = true) ∧
    ((getAllGenerations ex load (.ok keys)).records.length +
        ((keys.filter (fun k => strEndsWith k ".json")).filter
          (fun k => !(processGenerationKey ex load k).isSome)).length =
      (keys.filter (fun k => strEndsWith k ".json")).length) := by
  have hrec : (getAllGenerations ex load (.ok keys)).records =
      (keys.filter (fun k => strEndsWith k ".json")).filterMap
        (processGenerationKey ex load) := by
    show generationsLoop ex load [] keys = _
    rw [generationsLoop_eq]
    rfl
  refine ⟨hrec, fun k => processGenerationKey_isSome_iff ex load k, ?_⟩
  rw [hrec, length_filterMap_eq_length_filter]
  exact (List.length_eq_length_filter_add
    (fun k => (processGenerationKey ex load k).isSome)).symm

/-- C9: a failing top-level listing makes `get_all_generations` return an
empty collection together with the surfaced hard error — never partial data;
a successful listing never yields a hard error, whatever the per-record load
results are. -/
theorem buildCatalog_listing_error_handling (ex : String → Bool)
    (load : String → Option Json) :
    (∀ e : String, getAllGenerations ex load (.error e) =
        ⟨[], some e⟩) ∧
    (∀ keys : List String,
        (getAllGenerations ex load (.ok keys)).hardError = none ∧
        (getAllGenerations ex load (.ok keys)).records =
          (keys.filter (fun k => strEndsWith k ".json")).filterMap
            (processGenerationKey ex load)) := by
  refine ⟨fun e => rfl, fun keys => ⟨rfl, ?_⟩⟩
  show generationsLoop ex load [] keys = _
  rw [generationsLoop_eq]
  rfl

/-! ## Filtering (`apply_filters`, src/app.py)

`apply_filters` runs with no surrounding handler, so a duck-typing violation
inside one of its comprehensions propagates; `Except` makes those raises
explicit. -/

/-- A guarded list comprehension `[g for g in gs if p(g)]` whose predicate may
raise; Python evaluates left to right and the first raise aborts the whole
comprehension. -/
def filterE (p : Json → Except String Bool) :
    List Json → Except String (List Json)
  | [] => .ok []
  | g :: gs =>
    match p g with
    | .error e => .error e
    | .ok b =>
      match filterE p gs with
      | .error e => .error e
      | .ok rest => .ok (if b then g :: rest else rest)

/-- `g.get('approach')` in the approach stage: `AttributeError` on a
non-dict record. -/
def approachValE (g : Json) : Except String Json :=
  match g with
  | .obj fs => .ok ((fs.lookup "approach").getD .null)
  | _ => .error "AttributeError: get"

/-- `g.get('model_config', \x7b\x7d).get(key)`: the second `.get` raises when
`model_config` is present but not a dict. -/
def modelConfigValE (key : String) (g : Json) : Except String Json :=
  match g with
  | .obj fs =>
    match (fs.lookup "model_config").getD (.obj .nil) with
    | .obj mc => .ok ((mc.lookup key).getD .null)
    | _ => .error "AttributeError: get"
  | _ => .error "AttributeError: get"

/-- `' '.join(x)`: joins a list's elements (`TypeError` if one is not a
string), a string's characters, or a dict's keys; `TypeError` otherwise. -/
def pyJoinSpace : Json → Except String String
  | .arr xs =>
    match xs.asStrings with
    | some ss => .ok (joinSpace ss)
    | none => .error "TypeError: join"
  | .str s => .ok (joinSpace (s.toList.map (fun c => String.mk [c])))
  | .obj fs => .ok (joinSpace fs.keys)
  | _ => .error "TypeError: join"

/-- Per-record body of the text-search loop shared by `apply_filters` and
`search_generations`: fetch `prompt_info.original`, the space-joined `tags`,
lower both, and test the lowered query as a substring of either.  Raises
(uncaught in `apply_filters`) when the record or its `prompt_info` is not a
dict, `original` is not a string, or `tags` is not joinable. -/
def searchMatchE (queryLower : String) (g : Json) : Except String Bool :=
  match g with
  | .obj fs =>
    match (fs.lookup "prompt_info").getD (.obj .nil) with
    | .obj pf =>
      match (pf.lookup "original").getD (.str "") with
      | .str orig =>
        match pyJoinSpace ((fs.lookup "tags").getD (.arr .nil)) with
        | .error e => .error e
        | .ok tagsText =>
            .ok (strOccurs queryLower (pyLower orig) ||
                 strOccurs queryLower (pyLower tagsText))
      | _ => .error "AttributeError: lower"
    | _ => .error "AttributeError: get"
  | _ => .error "AttributeError: get"

/-- One allow-list stage of `apply_filters`: skipped entirely when the
selection list is empty (falsy), else keeps records whose extracted field
value is a member of the selection. -/
def selectStage (sel : List Json) (getV : Json → Except String Json)
    (gs : List Json) : Except String (List Json) :=
  if sel.isEmpty then .ok gs
  else filterE (fun g => (getV g).map (fun v => sel.contains v)) gs

/-- Embedding of `apply_filters`: the approach, base-model and LoRA-model
allow-list stages in order, then the text-search stage when the query is
non-empty.  The source's `generations.copy()` is an identity in this pure
model (and guarantees the caller's list is never mutated). -/
def applyFilters (gens : List Json)
    (approaches baseModels loraModels : List Json)
    (searchQuery : String) : Except String (List Json) :=
  match selectStage approaches approachValE gens with
  | .error e => .error e
  | .ok f1 =>
    match selectStage baseModels (modelConfigValE "base_model") f1 with
    | .error e => .error e
    | .ok f2 =>
      match selectStage loraModels (modelConfigValE "lora_model") f2 with
      | .error e => .error e
      | .ok f3 =>
        if searchQuery = "" then .ok f3
        else filterE (searchMatchE (pyLower searchQuery)) f3

/-! ### Search characterization on well-formed records -/

/-- The record shapes on which the text-search loop cannot raise:
`prompt_info` absent or a dict whose `original` is absent or a string, and
`tags` absent or joinable. -/
def searchWF (g : Json) : Bool :=
  match g with
  | .obj fs =>
    (match (fs.lookup "prompt_info").getD (.obj .nil) with
     | .obj pf =>
       match (pf.lookup "original").getD (.str "") with
       | .str _ => true
       | _ => false
     | _ => false) &&
    (match pyJoinSpace ((fs.lookup "tags").getD (.arr .nil)) with
     | .ok _ => true
     | .error _ => false)
  | _ => false

/-- The prompt's original text as read by the search loop (with the source's
defaults) on a well-formed record. -/
def promptOriginalD (g : Json) : String :=
  match Json.objGetD (Json.objGetD g "prompt_info" (.obj .nil)) "original" (.str "") with
  | .str s => s
  | _ => ""

/-- The space-joined tag text as read by the search loop on a well-formed
record. -/
def tagsTextD (g : Json) : String :=
  match pyJoinSpace (Json.objGetD g "tags" (.arr .nil)) with
  | .ok t => t
  | .error _ => ""

/-- The pure search predicate: the lowered query occurs as a substring of the
lowered original prompt or of the lowered joined tag text. -/
def searchHit (query : String) (g : Json) : Bool :=
  strOccurs (pyLower query) (pyLower (promptOriginalD g)) ||
  strOccurs (pyLower query) (pyLower (tagsTextD g))

theorem searchMatchE_eq_of_WF (ql : String) (g : Json)
    (h : searchWF g = true) :
    searchMatchE ql g =
      .ok (strOccurs ql (pyLower (promptOriginalD g)) ||
           strOccurs ql (pyLower (tagsTextD g))) := by
  cases g with
  | obj fs =>
    simp only [searchWF, Bool.and_eq_true] at h
    obtain ⟨h1, h2⟩ := h
    cases hpi : (fs.lookup "prompt_info").getD (.obj .nil) with
    | obj pf =>
      cases horig : (pf.lookup "original").getD (.str "") with
      | str orig =>
        cases hjoin : pyJoinSpace ((fs.lookup "tags").getD (.arr .nil)) with
        | ok tagsText =>
          simp [searchMatchE, hpi, horig, hjoin, promptOriginalD,
            tagsTextD, Json.objGetD]
        | error e => simp [hjoin] at h2
      | null => simp [hpi, horig] at h1
      | bool b => simp [hpi, horig] at h1
      | num v => simp [hpi, horig] at h1
      | arr xs => simp [hpi, horig] at h1
      | obj fs' => simp [hpi, horig] at h1
    | null => simp [hpi] at h1
    | bool b => simp [hpi] at h1
    | num v => simp [hpi] at h1
    | str s => simp [hpi] at h1
    | arr xs => simp [hpi] at h1
  | null => simp [searchWF] at h
  | bool b => simp [searchWF] at h
  | num v => simp [searchWF] at h
  | str s => simp [searchWF] at h
  | arr xs => simp [searchWF] at h

theorem filterE_eq_filter (p : Json → Except String Bool) (pb : Json → Bool)
    (gs : List Json) (h : ∀ g ∈ gs, p g = .ok (pb g)) :
    filterE p gs = .ok (gs.filter pb) := by
  induction gs with
  | nil => rfl
  | cons g gs ih =>
    have hg := h g (by simp)
    have hrest := ih (fun g' hg' => h g' (by simp [hg']))
    cases hpb : pb g <;>
      simp [filterE, hg, hrest, List.filter_cons, hpb]

/-- C4: with all three filter sets empty and empty search text,
`apply_filters` returns the input catalog unchanged in order and content. -/
theorem applyFilters_identity (gens : List Json) :
    applyFilters gens [] [] [] "" = .ok gens := rfl

/-- C3: on well-formed records and a non-empty query, `apply_filters` with no
set filters keeps exactly the records whose lowered prompt text or lowered
joined tag text contains the lowered query as a substring. -/
theorem applyFilters_search_exact (gens : List Json) (q : String)
    (hq : q ≠ "") (hwf : ∀ g ∈ gens, searchWF g = true) :
    applyFilters gens [] [] [] q = .ok (gens.filter (searchHit q)) := by
  show (if q = "" then Except.ok gens
        else filterE (searchMatchE (pyLower q)) gens) = _
  rw [if_neg hq]
  exact filterE_eq_filter _ (searchHit q) gens
    (fun g hg => searchMatchE_eq_of_WF (pyLower q) g (hwf g hg))

/-- A record whose prompt is "A BEDROOM floor plan". -/
def recBedroomPrompt : Json :=
  .obj (.cons "prompt_info"
    (.obj (.cons "original" (.str "A BEDROOM floor plan") .nil)) .nil)

/-- A record whose prompt is "a kitchen" with tags `["Bedroom"]`. -/
def recBedroomTag : Json :=
  .obj (.cons "prompt_info"
    (.obj (.cons "original" (.str "a kitchen") .nil))
    (.cons "tags" (.arr (.cons (.str "Bedroom") .nil)) .nil))

/-- A record matching "bedroom" in neither place. -/
def recNoBedroom : Json :=
  .obj (.cons "prompt_info"
    (.obj (.cons "original" (.str "open space") .nil)) .nil)

/-- Witness for C3: searching "bedroom" keeps the uppercase-prompt record and
the tag-only record and drops the third. -/
theorem applyFilters_search_exact_witness :
    applyFilters [recBedroomPrompt, recBedroomTag, recNoBedroom] [] [] []
        "bedroom" = .ok [recBedroomPrompt, recBedroomTag] := by
  rw [applyFilters_search_exact
    [recBedroomPrompt, recBedroomTag, recNoBedroom] "bedroom"
    (by decide) (by decide)]
  simp only [Except.ok.injEq]
  decide

/-! ### Subsequence invariant -/

theorem filterE_sublist (p : Json → Except String Bool) :
    ∀ (gs r : List Json), filterE p gs = .ok r → r.Sublist gs := by
  intro gs
  induction gs with
  | nil =>
    intro r h
    simp only [filterE] at h
    cases h
    exact List.Sublist.refl _
  | cons g gs ih =>
    intro r h
    simp only [filterE] at h
    cases hp : p g with
    | error e => rw [hp] at h; cases h
    | ok b =>
      rw [hp] at h
      cases hrest : filterE p gs with
      | error e => rw [hrest] at h; cases h
      | ok rest =>
        rw [hrest] at h
        cases b with
        | true =>
          simp only [if_pos] at h
          cases h
          exact (ih rest hrest).cons₂ g
        | false =>
          simp only [if_neg] at h
          cases h
          exact (ih rest hrest).cons g

theorem selectStage_sublist (sel : List Json) (getV : Json → Except String Json)
    (gs r : List Json) (h : selectStage sel getV gs = .ok r) : r.Sublist gs := by
  unfold selectStage at h
  by_cases he : sel.isEmpty
  · rw [if_pos he] at h; cases h; exact List.Sublist.refl _
  · rw [if_neg he] at h; exact filterE_sublist _ gs r h

/-- C10: whenever `apply_filters` returns (does not raise), the result is a
subsequence of the input catalog — every returned record is an input record
and relative order is preserved.  The model is pure and the source filters a
`generations.copy()`, so the input list itself is never modified. -/
theorem applyFilters_sublist (gens aps bms lms : List Json) (q : String)
    (r : List Json) (h : applyFilters gens aps bms lms q = .ok r) :
    r.Sublist gens := by
  unfold applyFilters at h
  split at h
  next => cases h
  next f1 h1 =>
    split at h
    next => cases h
    next f2 h2 =>
      split at h
      next => cases h
      next f3 h3 =>
        have s1 := selectStage_sublist _ _ _ _ h1
        have s2 := selectStage_sublist _ _ _ _ h2
        have s3 := selectStage_sublist _ _ _ _ h3
        by_cases hq : q = ""
        · rw [if_pos hq] at h
          cases h
          exact (s3.trans s2).trans s1
        · rw [if_neg hq] at h
          exact (((filterE_sublist _ f3 r h).trans s3).trans s2).trans s1

/-- Witness for C10 at a concrete input: filtering by approach keeps a
subsequence. -/
theorem applyFilters_sublist_witness :
    ([recBedroomTag] : List Json).Sublist [recBedroomPrompt, recBedroomTag] := by
  refine applyFilters_sublist [recBedroomPrompt, recBedroomTag] [] [] []
    "kitchen" [recBedroomTag] ?_
  rfl

/-! ## Statistics (`calculate_statistics`, src/utils/helpers.py) -/

/-- `isinstance(x, (int, float))`: Python booleans are ints. -/
def Json.isPyNumber : Json → Bool
  | .num _ => true
  | .bool _ => true
  | _ => false

/-- Numeric value of a Python number (`True == 1`, `False == 0`). -/
def Json.pyNumVal : Json → ℚ
  | .num v => v
  | .bool b => if b then 1 else 0
  | _ => 0

/-- The mutable state of the `calculate_statistics` loop: the three counter
dicts (insertion-ordered) and the collected `generation_times` list. -/
structure StatAcc where
  approaches : List (Json × Nat)
  baseModels : List (Json × Nat)
  loraModels : List (Json × Nat)
  times : List ℚ
deriving DecidableEq

/-- `d[k] = d.get(k, 0) + 1` on an insertion-ordered counter dict. -/
def bumpCount : List (Json × Nat) → Json → List (Json × Nat)
  | [], k => [(k, 1)]
  | (k', n) :: rest, k =>
      if k' = k then (k', n + 1) :: rest else (k', n) :: bumpCount rest k

/-- The `generation_time` part of one loop iteration:
`gen_time = gen.get('generation_time', 0)` followed by
`if isinstance(gen_time, (int, float)) and gen_time > 0: append`. -/
def timeStep (acc : StatAcc) (fs : JsonFields) : StatAcc :=
  let t := (fs.lookup "generation_time").getD (.num 0)
  if t.isPyNumber && decide (0 < t.pyNumVal) then
    { acc with times := acc.times ++ [t.pyNumVal] }
  else acc

/-- One iteration of the `calculate_statistics` loop: count by approach, by
base model and by LoRA model (skipping the model counts when `model_config`
is not a dict), then collect the usable generation time.  Raises (uncaught in
the source) on a non-dict record or an unhashable counted value. -/
def statStep (acc : StatAcc) (g : Json) : Except String StatAcc :=
  match g with
  | .obj fs =>
    let approach := (fs.lookup "approach").getD (.str "Unknown")
    if approach.hashable then
      let acc1 : StatAcc := { acc with approaches := bumpCount acc.approaches approach }
      match (fs.lookup "model_config").getD (.obj .nil) with
      | .obj mcf =>
        let bm := (mcf.lookup "base_model").getD (.str "Unknown")
        if bm.hashable then
          let acc2 : StatAcc := { acc1 with baseModels := bumpCount acc1.baseModels bm }
          let lm := (mcf.lookup "lora_model").getD (.str "Unknown")
          if lm.hashable then
            .ok (timeStep { acc2 with loraModels := bumpCount acc2.loraModels lm } fs)
          else .error "TypeError: unhashable key"
        else .error "TypeError: unhashable key"
      | _ => .ok (timeStep acc1 fs)
    else .error "TypeError: unhashable key"
  | _ => .error "AttributeError: get"

def statFold : StatAcc → List Json → Except String StatAcc
  | acc, [] => .ok acc
  | acc, g :: gs =>
    match statStep acc g with
    | .error e => .error e
    | .ok acc' => statFold acc' gs

/-- The statistics dictionary built by `calculate_statistics`. -/
structure Stats where
  total_generations : Nat
  approaches : List (Json × Nat)
  base_models : List (Json × Nat)
  lora_models : List (Json × Nat)
  avg_generation_time : ℚ
  total_generation_time : ℚ
deriving DecidableEq

/-- Embedding of `calculate_statistics`: `.ok none` models the `return \x7b\x7d`
on a falsy (empty) input; `.error` models an uncaught `TypeError` /
`AttributeError` from the loop; otherwise the counters and the
average/total of the collected times (both left at `0` when no usable time
was collected). -/
def calculateStatistics (gens : List Json) : Except String (Option Stats) :=
  if gens.isEmpty then .ok none
  else
    match statFold ⟨[], [], [], []⟩ gens with
    | .error e => .error e
    | .ok acc =>
      .ok (some
        { total_generations := gens.length
          approaches := acc.approaches
          base_models := acc.baseModels
          lora_models := acc.loraModels
          avg_generation_time :=
            if acc.times.isEmpty then 0 else acc.times.sum / acc.times.length
          total_generation_time :=
            if acc.times.isEmpty then 0 else acc.times.sum })

/-- The generation time the loop collects from one record, when usable:
numeric in Python's sense (booleans included) and strictly positive. -/
def timeOpt (g : Json) : Option ℚ :=
  let t := Json.objGetD g "generation_time" (.num 0)
  if t.isPyNumber && decide (0 < t.pyNumVal) then some t.pyNumVal else none

/-- All collected generation times of a catalog, in order. -/
def posTimes (gens : List Json) : List ℚ :=
  gens.filterMap timeOpt

/-- Record shapes on which the statistics loop cannot raise: a dict whose
counted values (after the `'Unknown'` defaults) are hashable. -/
def statsWF (g : Json) : Bool :=
  match g with
  | .obj fs =>
    ((fs.lookup "approach").getD (.str "Unknown")).hashable &&
    (match (fs.lookup "model_config").getD (.obj .nil) with
     | .obj mcf =>
         ((mcf.lookup "base_model").getD (.str "Unknown")).hashable &&
         ((mcf.lookup "lora_model").getD (.str "Unknown")).hashable
     | _ => true)
  | _ => false

theorem timeStep_times (acc : StatAcc) (fs : JsonFields) :
    (timeStep acc fs).times = acc.times ++ (timeOpt (.obj fs)).toList := by
  unfold timeStep timeOpt Json.objGetD
  cases hc : (((fs.lookup "generation_time").getD (.num 0)).isPyNumber &&
      decide (0 < ((fs.lookup "generation_time").getD (.num 0)).pyNumVal)) <;>
    simp [hc]

/-- The successful value of one statistics-loop iteration (proof device: the
state `statStep` returns when it does not raise). -/
def statStepPure (acc : StatAcc) (g : Json) : StatAcc :=
  match g with
  | .obj fs =>
    let approach := (fs.lookup "approach").getD (.str "Unknown")
    let acc1 : StatAcc := { acc with approaches := bumpCount acc.approaches approach }
    match (fs.lookup "model_config").getD (.obj .nil) with
    | .obj mcf =>
      let bm := (mcf.lookup "base_model").getD (.str "Unknown")
      let lm := (mcf.lookup "lora_model").getD (.str "Unknown")
      timeStep { acc1 with baseModels := bumpCount acc1.baseModels bm, loraModels := bumpCount acc1.loraModels lm } fs
    | _ => timeStep acc1 fs
  | _ => acc

theorem statStep_ok_of_WF (acc : StatAcc) (g : Json) (h : statsWF g = true) :
    statStep acc g = .ok (statStepPure acc g) := by
  cases g with
  | obj fs =>
    simp only [statsWF, Bool.and_eq_true] at h
    obtain ⟨happ, hmc⟩ := h
    cases hmv : (fs.lookup "model_config").getD (.obj .nil) with
    | obj mcf =>
      rw [hmv] at hmc
      simp only [Bool.and_eq_true] at hmc
      obtain ⟨hbm, hlm⟩ := hmc
      simp [statStep, statStepPure, happ, hmv, hbm, hlm]
    | null => simp [statStep, statStepPure, happ, hmv]
    | bool b => simp [statStep, statStepPure, happ, hmv]
    | num v => simp [statStep, statStepPure, happ, hmv]
    | str s => simp [statStep, statStepPure, happ, hmv]
    | arr xs => simp [statStep, statStepPure, happ, hmv]
  | null => simp [statsWF] at h
  | bool b => simp [statsWF] at h
  | num v => simp [statsWF] at h
  | str s => simp [statsWF] at h
  | arr xs => simp [statsWF] at h

theorem statStepPure_times (acc : StatAcc) (g : Json) :
    (statStepPure acc g).times = acc.times ++ (timeOpt g).toList := by
  cases g with
  | obj fs =>
    simp only [statStepPure]
    cases hmv : (fs.lookup "model_config").getD (.obj .nil) <;>
      simp [hmv, timeStep_times, timeOpt, Json.objGetD]
  | null => simp [statStepPure, timeOpt, Json.objGetD, Json.isPyNumber,
      Json.pyNumVal]
  | bool b => simp [statStepPure, timeOpt, Json.objGetD, Json.isPyNumber,
      Json.pyNumVal]
  | num v => simp [statStepPure, timeOpt, Json.objGetD, Json.isPyNumber,
      Json.pyNumVal]
  | str s => simp [statStepPure, timeOpt, Json.objGetD, Json.isPyNumber,
      Json.pyNumVal]
  | arr xs => simp [statStepPure, timeOpt, Json.objGetD, Json.isPyNumber,
      Json.pyNumVal]

theorem statStep_times (acc : StatAcc) (g : Json) (h : statsWF g = true) :
    ∃ acc', statStep acc g = .ok acc' ∧
      acc'.times = acc.times ++ (timeOpt g).toList :=
  ⟨statStepPure acc g, statStep_ok_of_WF acc g h, statStepPure_times acc g⟩

theorem statFold_times (gens : List Json) (acc : StatAcc)
    (h : ∀ g ∈ gens, statsWF g = true) :
    ∃ acc', statFold acc gens = .ok acc' ∧
      acc'.times = acc.times ++ posTimes gens := by
  induction gens generalizing acc with
  | nil => exact ⟨acc, rfl, by simp [posTimes]⟩
  | cons g gs ih =>
    obtain ⟨acc1, hstep, htimes⟩ := statStep_times acc g (h g (by simp))
    obtain ⟨acc2, hfold, htimes2⟩ := ih acc1 (fun g' hg' => h g' (by simp [hg']))
    refine ⟨acc2, ?_, ?_⟩
    · simp only [statFold, hstep, hfold]
    · rw [htimes2, htimes]
      cases ht : timeOpt g <;> simp [posTimes, List.filterMap_cons, ht]

/-- C2 (amended): on a non-empty catalog of well-shaped records,
`calculate_statistics` returns the sum and the mean of `generation_time`
taken over exactly those records whose `generation_time` is a strictly
positive number (Python numerics); records with a zero — including the
default used when the field is absent — negative, or non-numeric value are
excluded from both, not treated as zero. -/
theorem calculateStatistics_positive_time_stats (gens : List Json)
    (hne : gens ≠ []) (hwf : ∀ g ∈ gens, statsWF g = true) :
    ∃ s, calculateStatistics gens = .ok (some s) ∧
      s.total_generation_time =
        (if posTimes gens = [] then 0 else (posTimes gens).sum) ∧
      s.avg_generation_time =
        (if posTimes gens = [] then 0
         else (posTimes gens).sum / (posTimes gens).length) := by
  obtain ⟨acc, hfold, htimes⟩ := statFold_times gens ⟨[], [], [], []⟩ hwf
  simp only [List.nil_append] at htimes
  have hne' : gens.isEmpty = false := by
    cases gens with
    | nil => exact absurd rfl hne
    | cons g gs => rfl
  refine ⟨{ total_generations := gens.length
            approaches := acc.approaches
            base_models := acc.baseModels
            lora_models := acc.loraModels
            avg_generation_time :=
              if acc.times.isEmpty then 0 else acc.times.sum / acc.times.length
            total_generation_time :=
              if acc.times.isEmpty then 0 else acc.times.sum }, ?_, ?_, ?_⟩
  · simp only [calculateStatistics, hne', Bool.false_eq_true, if_false, hfold]
  · simp only [htimes]
    cases hp : posTimes gens with
    | nil => simp
    | cons t ts => simp
  · simp only [htimes]
    cases hp : posTimes gens with
    | nil => simp
    | cons t ts => simp

/-- A record whose `generation_time` is 10. -/
def recTime10 : Json := .obj (.cons "generation_time" (.num 10) .nil)

/-- A record whose `generation_time` is 20. -/
def recTime20 : Json := .obj (.cons "generation_time" (.num 20) .nil)

/-- A record whose `generation_time` is the non-numeric string "bad". -/
def recTimeBad : Json := .obj (.cons "generation_time" (.str "bad") .nil)

/-- A record whose `generation_time` is 0 — a non-negative number. -/
def recTime0 : Json := .obj (.cons "generation_time" (.num 0) .nil)

/-- Witness for the amended C2, covering the claim's concrete instance: on
records with `generation_time` values `[10, 20, "bad"]` the average is 15 and
the total is 30; the invalid entry is ignored. -/
theorem calculateStatistics_positive_time_stats_witness :
    ∃ s, calculateStatistics [recTime10, recTime20, recTimeBad] =
        .ok (some s) ∧
      s.total_generation_time = 30 ∧ s.avg_generation_time = 15 := by
  obtain ⟨s, hs, htot, havg⟩ := calculateStatistics_positive_time_stats
    [recTime10, recTime20, recTimeBad] (by decide) (by decide)
  have hpt : posTimes [recTime10, recTime20, recTimeBad] = [10, 20] := by decide
  refine ⟨s, hs, ?_, ?_⟩
  · rw [htot, hpt, if_neg (by simp : ¬([(10 : ℚ), 20] = []))]
    norm_num
  · rw [havg, hpt, if_neg (by simp : ¬([(10 : ℚ), 20] = []))]
    norm_num

/-- The claim's notion of usable value, word for word: a `generation_time`
that is a non-negative number (stated for comparison with the code's
strictly-positive test). -/
def claimNonnegTimes (gens : List Json) : List ℚ :=
  gens.filterMap (fun g =>
    match Json.objGetD g "generation_time" Json.null with
    | .num v => if 0 ≤ v then some v else none
    | _ => none)

/-- The average field of a successful non-empty statistics run. -/
def statsAvgOf (r : Except String (Option Stats)) : Option ℚ :=
  match r with
  | .ok (some s) => some s.avg_generation_time
  | _ => none

/-- Counterexample to C2 as stated: on records with `generation_time` values
`[10, 0]`, the value `0` is a non-negative number, so the claim's mean over
non-negative values is `5`; the code excludes the zero record and reports an
average of `10`. -/
theorem calculateStatistics_nonneg_counterexample :
    statsAvgOf (calculateStatistics [recTime10, recTime0]) = some 10 ∧
    claimNonnegTimes [recTime10, recTime0] = [10, 0] ∧
    ([(10 : ℚ), 0].sum / [(10 : ℚ), 0].length) = 5 ∧
    (10 : ℚ) ≠ 5 := by
  refine ⟨?_, by decide, by norm_num, by norm_num⟩
  have h1 : statFold ⟨[], [], [], []⟩ [recTime10, recTime0] =
      .ok ⟨[(.str "Unknown", 2)], [(.str "Unknown", 2)],
           [(.str "Unknown", 2)], [10]⟩ := by rfl
  simp only [calculateStatistics, statsAvgOf, h1]
  norm_num

/-! ## Image key resolution (`_get_image_key_from_metadata`) -/

/-- The record's `s3_paths.main_image` string, when present (the source of
the claim's third branch). -/
def mainImageUrl (md : Json) : Option String :=
  match md.getItem "s3_paths" with
  | some (.obj sp) =>
    match sp.lookup "main_image" with
    | some (.str url) => some url
    | _ => none
  | _ => none

/-- C5 (amended): for a record carrying string `generation_id` and `approach`,
`_get_image_key_from_metadata` returns
`images/by_approach/(approach)/(generation_id).png` if that object exists;
else the `.jpg` variant if it exists; else — only when `s3_paths.main_image`
is present **and contains the `.s3.amazonaws.com/` host marker** — the
portion after the marker's last occurrence; else `None`.  The four branches
are tried in exactly this order. -/
theorem imageKey_branch_order (ex : String → Bool) (md : Json)
    (gid ap : String)
    (hg : md.getItem "generation_id" = some (.str gid))
    (ha : md.getItem "approach" = some (.str ap)) :
    imageKeyFromMetadata ex md =
      (if ex ("images/by_approach/" ++ ap ++ "/" ++ gid ++ ".png") then
        some ("images/by_approach/" ++ ap ++ "/" ++ gid ++ ".png")
      else if ex ("images/by_approach/" ++ ap ++ "/" ++ gid ++ ".jpg") then
        some ("images/by_approach/" ++ ap ++ "/" ++ gid ++ ".jpg")
      else
        match mainImageUrl md with
        | some url =>
            if strOccurs s3Marker url then some (stripS3Url url) else none
        | none => none) := by
  unfold imageKeyFromMetadata mainImageUrl
  simp only [hg, ha]
  by_cases h1 : ex ("images/by_approach/" ++ ap ++ "/" ++ gid ++ ".png")
  · simp [h1]
  · simp only [h1, Bool.false_eq_true, if_false]
    by_cases h2 : ex ("images/by_approach/" ++ ap ++ "/" ++ gid ++ ".jpg")
    · simp [h2]
    · simp only [h2, Bool.false_eq_true, if_false]
      cases hs : md.getItem "s3_paths" with
      | none => simp
      | some v =>
        cases v with
        | obj sp =>
          cases hmi : sp.lookup "main_image" with
          | none => simp [hmi]
          | some w => cases w <;> simp [hmi]
        | null => simp
        | bool b => simp
        | num q => simp
        | str s => simp
        | arr xs => simp

/-- A record whose `s3_paths.main_image` is a full URL containing the host
marker. -/
def recHostedMainImage : Json :=
  .obj (.cons "generation_id" (.str "abc123")
    (.cons "approach" (.str "single_lora")
      (.cons "s3_paths" (.obj (.cons "main_image"
        (.str "https://bkt.s3.amazonaws.com/images/by_approach/single_lora/abc123.png")
        .nil)) .nil)))

/-- A record whose `s3_paths.main_image` is present but is a bare storage key
with no host portion. -/
def recBareMainImage : Json :=
  .obj (.cons "generation_id" (.str "abc123")
    (.cons "approach" (.str "single_lora")
      (.cons "s3_paths" (.obj (.cons "main_image"
        (.str "images/plain/abc123.png") .nil)) .nil)))

/-- Witness for the amended C5: with neither probe key existing, the hosted
URL is stripped to its storage key. -/
theorem imageKey_branch_order_witness :
    imageKeyFromMetadata (fun _ => false) recHostedMainImage =
      some "images/by_approach/single_lora/abc123.png" := by
  rw [imageKey_branch_order (fun _ => false) recHostedMainImage
    "abc123" "single_lora" (by decide) (by decide)]
  decide

/-- Counterexample to C5 as stated: for a record with `approach` and
`generation_id`, neither probe key existing, and `s3_paths.main_image`
present (a bare storage key without the host marker), the claim promises the
storage key obtained by stripping the host portion — but the code returns
`None`. -/
theorem imageKey_main_image_counterexample :
    mainImageUrl recBareMainImage = some "images/plain/abc123.png" ∧
    imageKeyFromMetadata (fun _ => false) recBareMainImage = none := by
  exact ⟨by decide, by decide⟩

/-! ## Filter options (`get_available_filters`) -/

/-- `s.add(v)` on a Python set, modelled as an insertion-ordered
duplicate-free list (the order is irrelevant: the source sorts before
returning). -/
def setAddPure (xs : List Json) (v : Json) : List Json :=
  if v ∈ xs then xs else xs ++ [v]

/-- `s.add(v)` including the `TypeError` on unhashable values. -/
def setAddE (xs : List Json) (v : Json) : Except String (List Json) :=
  if v.hashable then .ok (setAddPure xs v) else .error "TypeError: unhashable"

/-- The three value sets accumulated by the `get_available_filters` loop. -/
structure FilterAcc where
  approaches : List Json
  baseModels : List Json
  loraModels : List Json
deriving DecidableEq

/-- One iteration of the `get_available_filters` loop: collect `approach`
when present, and `base_model` / `lora_model` from a dict-shaped
`model_config`.  Raises on a non-dict record (`in` / `.get` misuse) or an
unhashable collected value; the function's own handler turns any raise into
the empty result. -/
def filterStep (acc : FilterAcc) (g : Json) : Except String FilterAcc :=
  match g with
  | .obj fs =>
    match (if fs.hasKey "approach" then
        setAddE acc.approaches ((fs.lookup "approach").getD .null)
      else .ok acc.approaches) with
    | .error e => .error e
    | .ok aps =>
      match (fs.lookup "model_config").getD (.obj .nil) with
      | .obj mcf =>
        match (if mcf.hasKey "base_model" then
            setAddE acc.baseModels ((mcf.lookup "base_model").getD .null)
          else .ok acc.baseModels) with
        | .error e => .error e
        | .ok bms =>
          match (if mcf.hasKey "lora_model" then
              setAddE acc.loraModels ((mcf.lookup "lora_model").getD .null)
            else .ok acc.loraModels) with
          | .error e => .error e
          | .ok lms => .ok ⟨aps, bms, lms⟩
      | _ => .ok ⟨aps, acc.baseModels, acc.loraModels⟩
  | _ => .error "TypeError: non-dict record"

def filterFold : FilterAcc → List Json → Except String FilterAcc
  | acc, [] => .ok acc
  | acc, g :: gs =>
    match filterStep acc g with
    | .error e => .error e
    | .ok acc' => filterFold acc' gs

/-- Code-point lexicographic comparison of char lists, structurally recursive
so that the kernel can evaluate it (Lean's own `String.decidableLE` iterates
by UTF-8 position and does not kernel-reduce).  It decides the standard
`String` order, which coincides with Python's string comparison. -/
def lexLeChars : List Char → List Char → Bool
  | [], _ => true
  | _ :: _, [] => false
  | a :: as, b :: bs =>
    if a < b then true
    else if b < a then false
    else lexLeChars as bs

theorem lexLeChars_iff (as : List Char) : ∀ bs : List Char,
    lexLeChars as bs = true ↔ ¬ List.Lex (· < ·) bs as := by
  induction as with
  | nil =>
    intro bs
    simp only [lexLeChars, true_iff]
    intro h
    cases h
  | cons a as ih =>
    intro bs
    cases bs with
    | nil =>
      constructor
      · intro h
        exact absurd h (by simp [lexLeChars])
      · intro h
        exact absurd List.Lex.nil h
    | cons b bs =>
      by_cases hab : a < b
      · have hba : ¬ b < a := lt_asymm hab
        simp only [lexLeChars, if_pos hab, true_iff]
        intro h
        cases h with
        | cons h' => exact lt_irrefl _ hab
        | rel h' => exact hba h'
      · by_cases hba : b < a
        · simp only [lexLeChars, if_neg hab, if_pos hba]
          constructor
          · intro h
            exact Bool.noConfusion h
          · intro h
            exact absurd (List.Lex.rel hba) h
        · have heq : a = b := le_antisymm (le_of_not_lt hba) (le_of_not_lt hab)
          subst heq
          simp only [lexLeChars, if_neg hab, if_neg hba]
          rw [ih bs]
          constructor
          · intro h hlex
            cases hlex with
            | cons h' => exact h h'
            | rel h' => exact lt_irrefl _ h'
          · intro h hlex
            exact h (List.Lex.cons hlex)

/-- A kernel-computable decision procedure for the standard `String` order. -/
def strLeDec : DecidableRel (fun a b : String => a ≤ b) := fun a b =>
  decidable_of_iff (lexLeChars a.toList b.toList = true) (by
    rw [lexLeChars_iff]
    show _ ↔ a ≤ b
    rw [String.le_iff_toList_le]
    exact @not_lt (List Char) _ b.toList a.toList)

/-- Python's `sorted` on strings: insertion sort by the lexicographic
order. -/
def sortStrings (ss : List String) : List String :=
  @List.insertionSort String (· ≤ ·) strLeDec ss

theorem sortStrings_sorted (ss : List String) :
    (sortStrings ss).Sorted (· ≤ ·) :=
  @List.sorted_insertionSort String (· ≤ ·) strLeDec _ _ ss

theorem sortStrings_perm (ss : List String) : List.Perm (sortStrings ss) ss :=
  @List.perm_insertionSort String (· ≤ ·) strLeDec ss

/-- All values as strings, `none` when one is not a string.  (This `none`
models the `TypeError` of `sorted` on values it cannot compare.  Python would
still sort a homogeneous collection of non-string values, but the spec's data
model makes `approach`, `base_model` and `lora_model` strings, and the
theorems below stay inside that shape.) -/
def jsonStrs : List Json → Option (List String)
  | [] => some []
  | .str s :: rest => (jsonStrs rest).map (s :: ·)
  | _ => none

/-- The derived filter-option sets. -/
structure FilterOptions where
  approaches : List String
  base_models : List String
  lora_models : List String
deriving DecidableEq

/-- Embedding of `get_available_filters` applied to an already-built catalog:
collect the three value sets, then return each sorted; any exception inside
(including from `sorted`) is caught and yields three empty sequences. -/
def getAvailableFiltersFrom (gens : List Json) : FilterOptions :=
  match filterFold ⟨[], [], []⟩ gens with
  | .error _ => ⟨[], [], []⟩
  | .ok acc =>
    match jsonStrs acc.approaches, jsonStrs acc.baseModels,
        jsonStrs acc.loraModels with
    | some a, some b, some l =>
        ⟨sortStrings a, sortStrings b, sortStrings l⟩
    | _, _, _ => ⟨[], [], []⟩

/-- The `model_config`-nested value the loop collects for a key. -/
def mcItem (g : Json) (key : String) : Option Json :=
  (Json.objGetD g "model_config" (.obj .nil)).getItem key

/-- Record shapes on which the filter-collection loop cannot raise and
`sorted` receives strings: a dict whose `approach` and (dict-shaped)
`model_config.base_model` / `model_config.lora_model` values, when present,
are strings. -/
def filtersWF (g : Json) : Bool :=
  match g with
  | .obj fs =>
    (match fs.lookup "approach" with
     | none => true
     | some (.str _) => true
     | some _ => false) &&
    (match (fs.lookup "model_config").getD (.obj .nil) with
     | .obj mcf =>
       (match mcf.lookup "base_model" with
        | none => true
        | some (.str _) => true
        | some _ => false) &&
       (match mcf.lookup "lora_model" with
        | none => true
        | some (.str _) => true
        | some _ => false)
     | _ => true)
  | _ => false

/-- The successful value of one filter-collection iteration. -/
def filterStepPure (acc : FilterAcc) (g : Json) : FilterAcc :=
  match g with
  | .obj fs =>
    let aps := if fs.hasKey "approach" then
        setAddPure acc.approaches ((fs.lookup "approach").getD .null)
      else acc.approaches
    match (fs.lookup "model_config").getD (.obj .nil) with
    | .obj mcf =>
      let bms := if mcf.hasKey "base_model" then
          setAddPure acc.baseModels ((mcf.lookup "base_model").getD .null)
        else acc.baseModels
      let lms := if mcf.hasKey "lora_model" then
          setAddPure acc.loraModels ((mcf.lookup "lora_model").getD .null)
        else acc.loraModels
      ⟨aps, bms, lms⟩
    | _ => ⟨aps, acc.baseModels, acc.loraModels⟩
  | _ => acc

theorem filterStep_ok_of_WF (acc : FilterAcc) (g : Json)
    (h : filtersWF g = true) :
    filterStep acc g = .ok (filterStepPure acc g) := by
  cases g with
  | obj fs =>
    simp only [filtersWF, Bool.and_eq_true] at h
    obtain ⟨ha, hmc⟩ := h
    have haps : (if fs.hasKey "approach" then
        setAddE acc.approaches ((fs.lookup "approach").getD .null)
      else .ok acc.approaches) = .ok (if fs.hasKey "approach" then
        setAddPure acc.approaches ((fs.lookup "approach").getD .null)
      else acc.approaches) := by
      cases hk : fs.lookup "approach" with
      | none => simp [JsonFields.hasKey, hk]
      | some v =>
        rw [hk] at ha
        cases v <;> simp_all [JsonFields.hasKey, hk, setAddE, Json.hashable]
    cases hmv : (fs.lookup "model_config").getD (.obj .nil) with
    | obj mcf =>
      rw [hmv] at hmc
      simp only [Bool.and_eq_true] at hmc
      obtain ⟨hb, hl⟩ := hmc
      have hbms : (if mcf.hasKey "base_model" then
          setAddE acc.baseModels ((mcf.lookup "base_model").getD .null)
        else .ok acc.baseModels) = .ok (if mcf.hasKey "base_model" then
          setAddPure acc.baseModels ((mcf.lookup "base_model").getD .null)
        else acc.baseModels) := by
        cases hk : mcf.lookup "base_model" with
        | none => simp [JsonFields.hasKey, hk]
        | some v =>
          rw [hk] at hb
          cases v <;> simp_all [JsonFields.hasKey, hk, setAddE, Json.hashable]
      have hlms : (if mcf.hasKey "lora_model" then
          setAddE acc.loraModels ((mcf.lookup "lora_model").getD .null)
        else .ok acc.loraModels) = .ok (if mcf.hasKey "lora_model" then
          setAddPure acc.loraModels ((mcf.lookup "lora_model").getD .null)
        else acc.loraModels) := by
        cases hk : mcf.lookup "lora_model" with
        | none => simp [JsonFields.hasKey, hk]
        | some v =>
          rw [hk] at hl
          cases v <;> simp_all [JsonFields.hasKey, hk, setAddE, Json.hashable]
      simp only [filterStep, filterStepPure, haps, hmv, hbms, hlms]
    | null => simp only [filterStep, filterStepPure, haps, hmv]
    | bool b => simp only [filterStep, filterStepPure, haps, hmv]
    | num v => simp only [filterStep, filterStepPure, haps, hmv]
    | str s => simp only [filterStep, filterStepPure, haps, hmv]
    | arr xs => simp only [filterStep, filterStepPure, haps, hmv]
  | null => simp [filtersWF] at h
  | bool b => simp [filtersWF] at h
  | num v => simp [filtersWF] at h
  | str s => simp [filtersWF] at h
  | arr xs => simp [filtersWF] at h

theorem setAddPure_mem (xs : List Json) (v w : Json) :
    w ∈ setAddPure xs v ↔ w ∈ xs ∨ w = v := by
  by_cases h : v ∈ xs
  · simp only [setAddPure, h, if_pos]
    constructor
    · exact Or.inl
    · rintro (hw | rfl)
      · exact hw
      · exact h
  · simp [setAddPure, h]

theorem setAddPure_nodup (xs : List Json) (v : Json) (h : xs.Nodup) :
    (setAddPure xs v).Nodup := by
  by_cases hv : v ∈ xs
  · simpa [setAddPure, hv] using h
  · rw [setAddPure, if_neg hv]
    simp [List.nodup_append, h, hv]

theorem filterStepPure_approaches_eq (acc : FilterAcc) (g : Json) :
    (filterStepPure acc g).approaches =
      (match g.getItem "approach" with
       | some v => setAddPure acc.approaches v
       | none => acc.approaches) := by
  cases g with
  | obj fs =>
    cases hk : fs.lookup "approach" with
    | none =>
      cases hmv : (fs.lookup "model_config").getD (.obj .nil) <;>
        simp [filterStepPure, hmv, JsonFields.hasKey, hk, Json.getItem]
    | some v =>
      cases hmv : (fs.lookup "model_config").getD (.obj .nil) <;>
        simp [filterStepPure, hmv, JsonFields.hasKey, hk, Json.getItem]
  | null => simp [filterStepPure, Json.getItem]
  | bool b => simp [filterStepPure, Json.getItem]
  | num v => simp [filterStepPure, Json.getItem]
  | str s => simp [filterStepPure, Json.getItem]
  | arr xs => simp [filterStepPure, Json.getItem]

theorem filterStepPure_base_eq (acc : FilterAcc) (g : Json) :
    (filterStepPure acc g).baseModels =
      (match mcItem g "base_model" with
       | some v => setAddPure acc.baseModels v
       | none => acc.baseModels) := by
  cases g with
  | obj fs =>
    cases hmv : (fs.lookup "model_config").getD (.obj .nil) with
    | obj mcf =>
      cases hk : mcf.lookup "base_model" with
      | none =>
        simp [filterStepPure, hmv, mcItem, Json.objGetD, Json.getItem,
          JsonFields.hasKey, hk]
      | some v =>
        simp [filterStepPure, hmv, mcItem, Json.objGetD, Json.getItem,
          JsonFields.hasKey, hk]
    | null => simp [filterStepPure, hmv, mcItem, Json.objGetD, Json.getItem]
    | bool b => simp [filterStepPure, hmv, mcItem, Json.objGetD, Json.getItem]
    | num v => simp [filterStepPure, hmv, mcItem, Json.objGetD, Json.getItem]
    | str s => simp [filterStepPure, hmv, mcItem, Json.objGetD, Json.getItem]
    | arr xs => simp [filterStepPure, hmv, mcItem, Json.objGetD, Json.getItem]
  | null => simp [filterStepPure, mcItem, Json.objGetD, Json.getItem,
      JsonFields.lookup]
  | bool b => simp [filterStepPure, mcItem, Json.objGetD, Json.getItem,
      JsonFields.lookup]
  | num v => simp [filterStepPure, mcItem, Json.objGetD, Json.getItem,
      JsonFields.lookup]
  | str s => simp [filterStepPure, mcItem, Json.objGetD, Json.getItem,
      JsonFields.lookup]
  | arr xs => simp [filterStepPure, mcItem, Json.objGetD, Json.getItem,
      JsonFields.lookup]

theorem filterStepPure_lora_eq (acc : FilterAcc) (g : Json) :
    (filterStepPure acc g).loraModels =
      (match mcItem g "lora_model" with
       | some v => setAddPure acc.loraModels v
       | none => acc.loraModels) := by
  cases g with
  | obj fs =>
    cases hmv : (fs.lookup "model_config").getD (.obj .nil) with
    | obj mcf =>
      cases hk : mcf.lookup "lora_model" with
      | none =>
        simp [filterStepPure, hmv, mcItem, Json.objGetD, Json.getItem,
          JsonFields.hasKey, hk]
      | some v =>
        simp [filterStepPure, hmv, mcItem, Json.objGetD, Json.getItem,
          JsonFields.hasKey, hk]
    | null => simp [filterStepPure, hmv, mcItem, Json.objGetD, Json.getItem]
    | bool b => simp [filterStepPure, hmv, mcItem, Json.objGetD, Json.getItem]
    | num v => simp [filterStepPure, hmv, mcItem, Json.objGetD, Json.getItem]
    | str s => simp [filterStepPure, hmv, mcItem, Json.objGetD, Json.getItem]
    | arr xs => simp [filterStepPure, hmv, mcItem, Json.objGetD, Json.getItem]
  | null => simp [filterStepPure, mcItem, Json.objGetD, Json.getItem,
      JsonFields.lookup]
  | bool b => simp [filterStepPure, mcItem, Json.objGetD, Json.getItem,
      JsonFields.lookup]
  | num v => simp [filterStepPure, mcItem, Json.objGetD, Json.getItem,
      JsonFields.lookup]
  | str s => simp [filterStepPure, mcItem, Json.objGetD, Json.getItem,
      JsonFields.lookup]
  | arr xs => simp [filterStepPure, mcItem, Json.objGetD, Json.getItem,
      JsonFields.lookup]

set_option maxHeartbeats 1600000 in
theorem filterFold_spec (gens : List Json) (acc : FilterAcc)
    (h : ∀ g ∈ gens, filtersWF g = true) :
    ∃ acc', filterFold acc gens = .ok acc' ∧
      (∀ w, w ∈ acc'.approaches ↔
        w ∈ acc.approaches ∨ ∃ g ∈ gens, g.getItem "approach" = some w) ∧
      (∀ w, w ∈ acc'.baseModels ↔
        w ∈ acc.baseModels ∨ ∃ g ∈ gens, mcItem g "base_model" = some w) ∧
      (∀ w, w ∈ acc'.loraModels ↔
        w ∈ acc.loraModels ∨ ∃ g ∈ gens, mcItem g "lora_model" = some w) ∧
      (acc.approaches.Nodup → acc'.approaches.Nodup) ∧
      (acc.baseModels.Nodup → acc'.baseModels.Nodup) ∧
      (acc.loraModels.Nodup → acc'.loraModels.Nodup) := by
  induction gens generalizing acc with
  | nil => exact ⟨acc, rfl, by simp, by simp, by simp, id, id, id⟩
  | cons g gs ih =>
    have hwg := h g (by simp)
    obtain ⟨acc', hfold, hA, hB, hL, nA, nB, nL⟩ :=
      ih (filterStepPure acc g) (fun g' hg' => h g' (by simp [hg']))
    have stepA : ∀ w, w ∈ (filterStepPure acc g).approaches ↔
        w ∈ acc.approaches ∨ Json.getItem g "approach" = some w := by
      intro w
      rw [filterStepPure_approaches_eq]
      cases hk : Json.getItem g "approach" <;>
        simp [hk, setAddPure_mem, eq_comm]
    have stepB : ∀ w, w ∈ (filterStepPure acc g).baseModels ↔
        w ∈ acc.baseModels ∨ mcItem g "base_model" = some w := by
      intro w
      rw [filterStepPure_base_eq]
      cases hk : mcItem g "base_model" <;>
        simp [hk, setAddPure_mem, eq_comm]
    have stepL : ∀ w, w ∈ (filterStepPure acc g).loraModels ↔
        w ∈ acc.loraModels ∨ mcItem g "lora_model" = some w := by
      intro w
      rw [filterStepPure_lora_eq]
      cases hk : mcItem g "lora_model" <;>
        simp [hk, setAddPure_mem, eq_comm]
    have stepNA : acc.approaches.Nodup →
        (filterStepPure acc g).approaches.Nodup := by
      intro hnd
      cases hk : Json.getItem g "approach" <;>
        simp only [filterStepPure_approaches_eq, hk]
      · exact hnd
      · exact setAddPure_nodup _ _ hnd
    have stepNB : acc.baseModels.Nodup →
        (filterStepPure acc g).baseModels.Nodup := by
      intro hnd
      cases hk : mcItem g "base_model" <;>
        simp only [filterStepPure_base_eq, hk]
      · exact hnd
      · exact setAddPure_nodup _ _ hnd
    have stepNL : acc.loraModels.Nodup →
        (filterStepPure acc g).loraModels.Nodup := by
      intro hnd
      cases hk : mcItem g "lora_model" <;>
        simp only [filterStepPure_lora_eq, hk]
      · exact hnd
      · exact setAddPure_nodup _ _ hnd
    refine ⟨acc', ?_, ?_, ?_, ?_,
      fun hd => nA (stepNA hd), fun hd => nB (stepNB hd),
      fun hd => nL (stepNL hd)⟩
    · simp only [filterFold, filterStep_ok_of_WF acc g hwg, hfold]
    · intro w
      rw [hA w, stepA w, List.exists_mem_cons_iff]
      exact or_assoc
    · intro w
      rw [hB w, stepB w, List.exists_mem_cons_iff]
      exact or_assoc
    · intro w
      rw [hL w, stepL w, List.exists_mem_cons_iff]
      exact or_assoc

theorem filtersWF_vals_str (g : Json) (h : filtersWF g = true) :
    (∀ w, g.getItem "approach" = some w → ∃ s, w = Json.str s) ∧
    (∀ w, mcItem g "base_model" = some w → ∃ s, w = Json.str s) ∧
    (∀ w, mcItem g "lora_model" = some w → ∃ s, w = Json.str s) := by
  cases g with
  | obj fs =>
    simp only [filtersWF, Bool.and_eq_true] at h
    obtain ⟨ha, hmc⟩ := h
    refine ⟨?_, ?_, ?_⟩
    · intro w hw
      simp only [Json.getItem] at hw
      rw [hw] at ha
      cases w <;> simp at ha <;> exact ⟨_, rfl⟩
    · intro w hw
      cases hmv : (fs.lookup "model_config").getD (.obj .nil) with
      | obj mcf =>
        simp only [mcItem, Json.objGetD, hmv, Json.getItem] at hw
        simp only [hmv, Bool.and_eq_true] at hmc
        obtain ⟨hb, -⟩ := hmc
        rw [hw] at hb
        cases w <;> simp at hb <;> exact ⟨_, rfl⟩
      | null => simp [mcItem, Json.objGetD, hmv, Json.getItem] at hw
      | bool b => simp [mcItem, Json.objGetD, hmv, Json.getItem] at hw
      | num v => simp [mcItem, Json.objGetD, hmv, Json.getItem] at hw
      | str s => simp [mcItem, Json.objGetD, hmv, Json.getItem] at hw
      | arr xs => simp [mcItem, Json.objGetD, hmv, Json.getItem] at hw
    · intro w hw
      cases hmv : (fs.lookup "model_config").getD (.obj .nil) with
      | obj mcf =>
        simp only [mcItem, Json.objGetD, hmv, Json.getItem] at hw
        simp only [hmv, Bool.and_eq_true] at hmc
        obtain ⟨-, hl⟩ := hmc
        rw [hw] at hl
        cases w <;> simp at hl <;> exact ⟨_, rfl⟩
      | null => simp [mcItem, Json.objGetD, hmv, Json.getItem] at hw
      | bool b => simp [mcItem, Json.objGetD, hmv, Json.getItem] at hw
      | num v => simp [mcItem, Json.objGetD, hmv, Json.getItem] at hw
      | str s => simp [mcItem, Json.objGetD, hmv, Json.getItem] at hw
      | arr xs => simp [mcItem, Json.objGetD, hmv, Json.getItem] at hw
  | null => simp [filtersWF] at h
  | bool b => simp [filtersWF] at h
  | num v => simp [filtersWF] at h
  | str s => simp [filtersWF] at h
  | arr xs => simp [filtersWF] at h

theorem jsonStrs_of_strs (xs : List Json)
    (h : ∀ w ∈ xs, ∃ s, w = Json.str s) :
    ∃ ss, jsonStrs xs = some ss ∧ xs = ss.map Json.str := by
  induction xs with
  | nil => exact ⟨[], rfl, rfl⟩
  | cons x rest ih =>
    obtain ⟨s, rfl⟩ := h x (by simp)
    obtain ⟨ss, hss, hxs⟩ := ih (fun w hw => h w (by simp [hw]))
    exact ⟨s :: ss, by simp [jsonStrs, hss], by simp [hxs]⟩

/-- C6: `get_available_filters` returns the `approach`, `base_model` and
`lora_model` value sets each as a lexicographically sorted, duplicate-free
sequence of exactly the observed values, for every catalog of well-shaped
records; on the empty catalog the three sequences are empty and no error
occurs. -/
theorem deriveFilterOptions_sorted_nodup_exact :
    getAvailableFiltersFrom [] = ⟨[], [], []⟩ ∧
    ∀ gens : List Json, (∀ g ∈ gens, filtersWF g = true) →
      ((getAvailableFiltersFrom gens).approaches.Sorted (· ≤ ·) ∧
        (getAvailableFiltersFrom gens).approaches.Nodup ∧
        ∀ s : String, s ∈ (getAvailableFiltersFrom gens).approaches ↔
          ∃ g ∈ gens, g.getItem "approach" = some (.str s)) ∧
      ((getAvailableFiltersFrom gens).base_models.Sorted (· ≤ ·) ∧
        (getAvailableFiltersFrom gens).base_models.Nodup ∧
        ∀ s : String, s ∈ (getAvailableFiltersFrom gens).base_models ↔
          ∃ g ∈ gens, mcItem g "base_model" = some (.str s)) ∧
      ((getAvailableFiltersFrom gens).lora_models.Sorted (· ≤ ·) ∧
        (getAvailableFiltersFrom gens).lora_models.Nodup ∧
        ∀ s : String, s ∈ (getAvailableFiltersFrom gens).lora_models ↔
          ∃ g ∈ gens, mcItem g "lora_model" = some (.str s)) := by
  refine ⟨rfl, ?_⟩
  intro gens hwf
  obtain ⟨acc, hfold, hA, hB, hL, nA, nB, nL⟩ :=
    filterFold_spec gens ⟨[], [], []⟩ hwf
  have hsA : ∀ w ∈ acc.approaches, ∃ s, w = Json.str s := by
    intro w hw
    rw [hA w] at hw
    rcases hw with hc | ⟨g, hg, hgw⟩
    · simp at hc
    · exact (filtersWF_vals_str g (hwf g hg)).1 w hgw
  have hsB : ∀ w ∈ acc.baseModels, ∃ s, w = Json.str s := by
    intro w hw
    rw [hB w] at hw
    rcases hw with hc | ⟨g, hg, hgw⟩
    · simp at hc
    · exact (filtersWF_vals_str g (hwf g hg)).2.1 w hgw
  have hsL : ∀ w ∈ acc.loraModels, ∃ s, w = Json.str s := by
    intro w hw
    rw [hL w] at hw
    rcases hw with hc | ⟨g, hg, hgw⟩
    · simp at hc
    · exact (filtersWF_vals_str g (hwf g hg)).2.2 w hgw
  obtain ⟨ssA, hjA, hmapA⟩ := jsonStrs_of_strs _ hsA
  obtain ⟨ssB, hjB, hmapB⟩ := jsonStrs_of_strs _ hsB
  obtain ⟨ssL, hjL, hmapL⟩ := jsonStrs_of_strs _ hsL
  have hres : getAvailableFiltersFrom gens =
      ⟨sortStrings ssA, sortStrings ssB, sortStrings ssL⟩ := by
    simp only [getAvailableFiltersFrom, hfold, hjA, hjB, hjL]
  have ndA : ssA.Nodup :=
    List.Nodup.of_map Json.str (hmapA ▸ nA List.nodup_nil)
  have ndB : ssB.Nodup :=
    List.Nodup.of_map Json.str (hmapB ▸ nB List.nodup_nil)
  have ndL : ssL.Nodup :=
    List.Nodup.of_map Json.str (hmapL ▸ nL List.nodup_nil)
  rw [hres]
  refine ⟨⟨sortStrings_sorted ssA,
      (sortStrings_perm ssA).symm.nodup ndA, ?_⟩,
    ⟨sortStrings_sorted ssB,
      (sortStrings_perm ssB).symm.nodup ndB, ?_⟩,
    ⟨sortStrings_sorted ssL,
      (sortStrings_perm ssL).symm.nodup ndL, ?_⟩⟩
  · intro s
    rw [(sortStrings_perm ssA).mem_iff]
    have : s ∈ ssA ↔ Json.str s ∈ acc.approaches := by
      rw [hmapA]
      simp [List.mem_map]
    rw [this, hA (Json.str s)]
    simp
  · intro s
    rw [(sortStrings_perm ssB).mem_iff]
    have : s ∈ ssB ↔ Json.str s ∈ acc.baseModels := by
      rw [hmapB]
      simp [List.mem_map]
    rw [this, hB (Json.str s)]
    simp
  · intro s
    rw [(sortStrings_perm ssL).mem_iff]
    have : s ∈ ssL ↔ Json.str s ∈ acc.loraModels := by
      rw [hmapL]
      simp [List.mem_map]
    rw [this, hL (Json.str s)]
    simp

/-- A record with approach "b" and both model fields. -/
def recFilterB : Json :=
  .obj (.cons "approach" (.str "b")
    (.cons "model_config" (.obj (.cons "base_model" (.str "y")
      (.cons "lora_model" (.str "m2") .nil))) .nil))

/-- A record with approach "a" and only a base model. -/
def recFilterA : Json :=
  .obj (.cons "approach" (.str "a")
    (.cons "model_config" (.obj (.cons "base_model" (.str "x") .nil)) .nil))

/-- A record duplicating approach "a", with no model_config. -/
def recFilterDup : Json :=
  .obj (.cons "approach" (.str "a") .nil)

/-- Witness for C6: on a concrete catalog with a duplicated approach and
unsorted insertion order, the derived options are sorted and
duplicate-free. -/
theorem deriveFilterOptions_witness :
    (∀ g ∈ [recFilterB, recFilterA, recFilterDup], filtersWF g = true) ∧
    getAvailableFiltersFrom [recFilterB, recFilterA, recFilterDup] =
      ⟨["a", "b"], ["x", "y"], ["m2"]⟩ := by
  have h := deriveFilterOptions_sorted_nodup_exact.2
    [recFilterB, recFilterA, recFilterDup] (by decide)
  exact ⟨by decide, by decide⟩

/-! ## Comparisons (`get_comparisons` and the `display_comparisons` gate) -/

/-- The key test of the `get_comparisons` loop:
`key.endswith('.json') and 'comp_' in key`. -/
def comparisonKeyMatch (k : String) : Bool :=
  strEndsWith k ".json" && strOccurs "comp_" k

/-- The accumulating loop of `get_comparisons` over the keys listed under the
comparisons prefix: load each matching key and keep the truthy results; load
failures and falsy payloads are skipped. -/
def comparisonsLoop (load : String → Option Json) :
    List Json → List String → List Json
  | acc, [] => acc
  | acc, k :: ks =>
    comparisonsLoop load
      (if comparisonKeyMatch k then
        match load k with
        | some c => if c.truthy then acc ++ [c] else acc
        | none => acc
      else acc) ks

/-- Embedding of `get_comparisons`; a failing listing is caught by the
outermost handler and yields an empty collection. -/
def getComparisons (load : String → Option Json)
    (listing : Except String (List String)) : List Json :=
  match listing with
  | .error _ => []
  | .ok keys => comparisonsLoop load [] keys

/-- Python's `len`, raising `TypeError` on unsized values. -/
def pyLenE : Json → Except String Nat
  | .arr xs => .ok xs.length
  | .str s => .ok s.toList.length
  | .obj fs => .ok fs.size
  | _ => .error "TypeError: len"

/-- The per-comparison gate in `display_comparisons` (src/app.py:289-294):
read `generations` (default `[]`) and skip the set when `len(...) <= 1`.
Raises on a non-dict comparison or an unsized `generations` value (caught by
the handler that switches to the fallback path). -/
def comparisonKeepE (c : Json) : Except String Bool :=
  match c with
  | .obj fs =>
    match pyLenE ((fs.lookup "generations").getD (.arr .nil)) with
    | .error e => .error e
    | .ok n => .ok (decide (2 ≤ n))
  | _ => .error "AttributeError: get"

/-- The comparison sets that reach presentation. -/
def displayedComparisons (cs : List Json) : Except String (List Json) :=
  filterE comparisonKeepE cs

/-- Member count of a well-shaped comparison set. -/
def membersLen (c : Json) : Nat :=
  match Json.objGetD c "generations" (.arr .nil) with
  | .arr xs => xs.length
  | _ => 0

/-- Comparison shapes on which the display gate cannot raise: a dict whose
`generations`, when present, is an array. -/
def compWF (c : Json) : Bool :=
  match c with
  | .obj fs =>
    match (fs.lookup "generations").getD (.arr .nil) with
    | .arr _ => true
    | _ => false
  | _ => false

theorem comparisonsLoop_eq (load : String → Option Json)
    (keys : List String) (acc : List Json) :
    comparisonsLoop load acc keys =
      acc ++ (keys.filter comparisonKeyMatch).filterMap
        (fun k => (load k).bind
          (fun c => if c.truthy then some c else none)) := by
  induction keys generalizing acc with
  | nil => simp [comparisonsLoop]
  | cons k ks ih =>
    simp only [comparisonsLoop, List.filter_cons]
    by_cases h : comparisonKeyMatch k
    · simp only [h, if_pos]
      cases hl : load k with
      | none => simp [ih, List.filterMap_cons, hl, Option.bind]
      | some c =>
        cases hc : c.truthy <;>
          simp [ih, List.filterMap_cons, hl, hc, Option.bind]
    · simp [h, ih]

theorem comparisonKeepE_of_WF (c : Json) (h : compWF c = true) :
    comparisonKeepE c = .ok (decide (2 ≤ membersLen c)) := by
  cases c with
  | obj fs =>
    cases hg : (fs.lookup "generations").getD (.arr .nil) with
    | arr xs => simp [comparisonKeepE, pyLenE, hg, membersLen, Json.objGetD]
    | null => simp [compWF, hg] at h
    | bool b => simp [compWF, hg] at h
    | num v => simp [compWF, hg] at h
    | str s => simp [compWF, hg] at h
    | obj fs' => simp [compWF, hg] at h
  | null => simp [compWF] at h
  | bool b => simp [compWF] at h
  | num v => simp [compWF] at h
  | str s => simp [compWF] at h
  | arr xs => simp [compWF] at h

/-- C7: `get_comparisons` loads exactly the listed keys that end in `.json`
and contain `comp_` (keeping successfully loaded, truthy payloads), and the
presentation gate keeps exactly the comparison sets with at least 2 members,
so no singleton set reaches presentation. -/
theorem buildComparisons_exact (load : String → Option Json)
    (keys : List String) :
    (getComparisons load (.ok keys) =
      (keys.filter comparisonKeyMatch).filterMap
        (fun k => (load k).bind
          (fun c => if c.truthy then some c else none))) ∧
    ((∀ c ∈ getComparisons load (.ok keys), compWF c = true) →
      displayedComparisons (getComparisons load (.ok keys)) =
        .ok ((getComparisons load (.ok keys)).filter
          (fun c => decide (2 ≤ membersLen c))) ∧
      ∀ r, displayedComparisons (getComparisons load (.ok keys)) = .ok r →
        ∀ c ∈ r, 2 ≤ membersLen c) := by
  have hloop : getComparisons load (.ok keys) =
      (keys.filter comparisonKeyMatch).filterMap
        (fun k => (load k).bind
          (fun c => if c.truthy then some c else none)) := by
    show comparisonsLoop load [] keys = _
    rw [comparisonsLoop_eq]
    rfl
  refine ⟨hloop, fun hwf => ⟨?_, ?_⟩⟩
  · exact filterE_eq_filter _ _ _
      (fun c hc => comparisonKeepE_of_WF c (hwf c hc))
  · intro r hr c hcr
    simp only [displayedComparisons] at hr
    rw [filterE_eq_filter _ (fun c => decide (2 ≤ membersLen c)) _
      (fun c hc => comparisonKeepE_of_WF c (hwf c hc))] at hr
    rw [Except.ok.injEq] at hr
    subst hr
    have := List.of_mem_filter hcr
    simpa using this

/-- A comparison set with two members. -/
def compTwo : Json :=
  .obj (.cons "original_prompt" (.str "p")
    (.cons "generations"
      (.arr (.cons (.str "g1") (.cons (.str "g2") .nil))) .nil))

/-- A singleton comparison set. -/
def compOne : Json :=
  .obj (.cons "generations" (.arr (.cons (.str "g1") .nil)) .nil)

/-- Listing for the C7 witness: one valid two-member set, one singleton, one
key without the `comp_` convention, one non-JSON key. -/
def compKeysW : List String :=
  ["metadata/comparisons/comp_a.json", "metadata/comparisons/comp_s.json",
   "metadata/comparisons/other.json", "metadata/comparisons/comp_b.txt"]

def compLoadW : String → Option Json := fun k =>
  if k = "metadata/comparisons/comp_a.json" then some compTwo
  else if k = "metadata/comparisons/comp_s.json" then some compOne
  else none

/-- Witness for C7: the non-matching keys are never loaded, and only the
two-member set reaches presentation. -/
theorem buildComparisons_exact_witness :
    getComparisons compLoadW (.ok compKeysW) = [compTwo, compOne] ∧
    displayedComparisons [compTwo, compOne] = .ok [compTwo] := by
  have h := buildComparisons_exact compLoadW compKeysW
  exact ⟨by decide, by rfl⟩

/-! ## Fallback grouping by prompt hash
(`display_comparisons`, src/app.py:346-387) -/

/-- `gen.get('prompt_info', \x7b\x7d).get('hash', 'unknown')` with its possible
`AttributeError` on non-dict receivers. -/
def hashOfE (g : Json) : Except String Json :=
  match g with
  | .obj fs =>
    match (fs.lookup "prompt_info").getD (.obj .nil) with
    | .obj pf => .ok ((pf.lookup "hash").getD (.str "unknown"))
    | _ => .error "AttributeError: get"
  | _ => .error "AttributeError: get"

/-- The grouping key of a well-shaped record: `prompt_info.hash`, records
lacking a hash falling into the `"unknown"` bucket. -/
def hashOfD (g : Json) : Json :=
  Json.objGetD (Json.objGetD g "prompt_info" (.obj .nil)) "hash" (.str "unknown")

/-- Record shapes on which the fallback grouping cannot raise: a dict whose
`prompt_info` (default `\x7b\x7d`) is a dict and whose hash value can be a dict
key. -/
def fallbackWF (g : Json) : Bool :=
  match g with
  | .obj fs =>
    match (fs.lookup "prompt_info").getD (.obj .nil) with
    | .obj pf => ((pf.lookup "hash").getD (.str "unknown")).hashable
    | _ => false
  | _ => false

/-- One iteration of the grouping loop on an insertion-ordered dict:
append `g` to the existing bucket for `h`, else open a new bucket at the
end. -/
def groupInsert (acc : List (Json × List Json)) (h : Json) (g : Json) :
    List (Json × List Json) :=
  if acc.any (fun e => e.1 = h) then
    acc.map (fun e => if e.1 = h then (e.1, e.2 ++ [g]) else e)
  else acc ++ [(h, [g])]

def groupFoldE : List (Json × List Json) → List Json →
    Except String (List (Json × List Json))
  | acc, [] => .ok acc
  | acc, g :: gs =>
    match hashOfE g with
    | .error e => .error e
    | .ok h =>
      if h.hashable then groupFoldE (groupInsert acc h g) gs
      else .error "TypeError: unhashable"

/-- Embedding of the fallback path of `display_comparisons`: group the
catalog by prompt hash in first-occurrence order, then keep only the groups
with more than one member. -/
def fallbackGroups (gens : List Json) :
    Except String (List (Json × List Json)) :=
  match groupFoldE [] gens with
  | .error e => .error e
  | .ok grouped => .ok (grouped.filter (fun e => 1 < e.2.length))

/-- A group's title prompt source: the member's `prompt_info.original`,
defaulting to "Prompt inconnu" (src/app.py:366). -/
def promptTextD (g : Json) : String :=
  match Json.objGetD (Json.objGetD g "prompt_info" (.obj .nil)) "original"
      (.str "Prompt inconnu") with
  | .str s => s
  | _ => "Prompt inconnu"

/-- The display prompt of a group: the first member's prompt text. -/
def groupDisplayPrompt (ms : List Json) : String :=
  promptTextD (ms.headD .null)

/-- Dict lookup on the grouped buckets. -/
def findGroup : List (Json × List Json) → Json → Option (List Json)
  | [], _ => none
  | (k, v) :: rest, h => if k = h then some v else findGroup rest h

theorem hashOf_of_WF (g : Json) (h : fallbackWF g = true) :
    hashOfE g = .ok (hashOfD g) ∧ (hashOfD g).hashable = true := by
  cases g with
  | obj fs =>
    cases hpi : (fs.lookup "prompt_info").getD (.obj .nil) with
    | obj pf =>
      constructor
      · simp [hashOfE, hashOfD, Json.objGetD, hpi]
      · simp only [fallbackWF, hpi] at h
        simp [hashOfD, Json.objGetD, hpi, h]
    | null => simp [fallbackWF, hpi] at h
    | bool b => simp [fallbackWF, hpi] at h
    | num v => simp [fallbackWF, hpi] at h
    | str s => simp [fallbackWF, hpi] at h
    | arr xs => simp [fallbackWF, hpi] at h
  | null => simp [fallbackWF] at h
  | bool b => simp [fallbackWF] at h
  | num v => simp [fallbackWF] at h
  | str s => simp [fallbackWF] at h
  | arr xs => simp [fallbackWF] at h

theorem findGroup_map_bump (acc : List (Json × List Json)) (h₀ g h : Json) :
    findGroup (acc.map (fun e => if e.1 = h₀ then (e.1, e.2 ++ [g]) else e)) h
      = (findGroup acc h).map (fun v => if h = h₀ then v ++ [g] else v) := by
  induction acc with
  | nil => rfl
  | cons e rest ih =>
    obtain ⟨k, v⟩ := e
    simp only [List.map_cons]
    by_cases hk0 : k = h₀
    · rw [show (if (k, v).1 = h₀ then ((k, v).1, (k, v).2 ++ [g]) else (k, v))
          = (k, v ++ [g]) from by simp [hk0]]
      by_cases hkh : k = h
      · subst hkh
        simp [findGroup, hk0]
      · simp [findGroup, hkh, ih]
    · rw [show (if (k, v).1 = h₀ then ((k, v).1, (k, v).2 ++ [g]) else (k, v))
          = (k, v) from by simp [hk0]]
      by_cases hkh : k = h
      · subst hkh
        simp [findGroup, hk0]
      · simp [findGroup, hkh, ih]

theorem findGroup_append_single (acc : List (Json × List Json)) (h₀ : Json)
    (ms : List Json) (h : Json) :
    findGroup (acc ++ [(h₀, ms)]) h =
      (match findGroup acc h with
       | some v => some v
       | none => if h₀ = h then some ms else none) := by
  induction acc with
  | nil => simp [findGroup]
  | cons e rest ih =>
    obtain ⟨k, v⟩ := e
    by_cases hkh : k = h <;> simp [findGroup, hkh, ih]

theorem any_key_iff_findGroup (acc : List (Json × List Json)) (h₀ : Json) :
    acc.any (fun e => e.1 = h₀) = (findGroup acc h₀).isSome := by
  induction acc with
  | nil => rfl
  | cons e rest ih =>
    obtain ⟨k, v⟩ := e
    by_cases hk : k = h₀ <;> simp [findGroup, hk, ih]

theorem findGroup_groupInsert (acc : List (Json × List Json))
    (h₀ g h : Json) :
    findGroup (groupInsert acc h₀ g) h =
      (if h = h₀ then some ((findGroup acc h₀).getD [] ++ [g])
       else findGroup acc h) := by
  unfold groupInsert
  by_cases hp : acc.any (fun e => e.1 = h₀)
  · rw [if_pos hp, findGroup_map_bump]
    have hsome : (findGroup acc h₀).isSome := by
      rw [← any_key_iff_findGroup]
      exact hp
    by_cases hh : h = h₀
    · subst hh
      obtain ⟨v, hv⟩ := Option.isSome_iff_exists.mp hsome
      simp [hv]
    · rw [if_neg hh]
      cases hfg : findGroup acc h <;> simp [hh]
  · rw [if_neg hp, findGroup_append_single]
    have hnone : findGroup acc h₀ = none := by
      cases hfg : findGroup acc h₀ with
      | none => rfl
      | some v =>
        exact absurd (by rw [any_key_iff_findGroup, hfg]; rfl) hp
    by_cases hh : h = h₀
    · subst hh
      simp [hnone]
    · rw [if_neg hh]
      cases hfg : findGroup acc h with
      | some v => simp
      | none => simp [Ne.symm hh]

theorem groupInsert_keys_nodup (acc : List (Json × List Json))
    (h₀ g : Json) (hnd : (acc.map Prod.fst).Nodup) :
    ((groupInsert acc h₀ g).map Prod.fst).Nodup := by
  unfold groupInsert
  by_cases hp : acc.any (fun e => e.1 = h₀)
  · rw [if_pos hp, List.map_map]
    have hfun : (Prod.fst ∘ fun e : Json × List Json =>
        if e.1 = h₀ then (e.1, e.2 ++ [g]) else e) =
        (Prod.fst : Json × List Json → Json) := by
      funext e
      by_cases he : e.1 = h₀ <;> simp [he]
    rw [hfun]
    exact hnd
  · rw [if_neg hp, List.map_append]
    have hnotin : h₀ ∉ acc.map Prod.fst := by
      intro hin
      obtain ⟨e, he, hke⟩ := List.mem_map.mp hin
      exact hp (List.any_eq_true.mpr ⟨e, he, by simp [hke]⟩)
    simp [List.nodup_append, hnd, hnotin]

theorem findGroup_mem (acc : List (Json × List Json)) (h : Json)
    (v : List Json) (hfg : findGroup acc h = some v) : (h, v) ∈ acc := by
  induction acc with
  | nil => cases hfg
  | cons e rest ih =>
    obtain ⟨k, w⟩ := e
    by_cases hk : k = h
    · subst hk
      simp only [findGroup] at hfg
      rw [if_pos trivial, Option.some.injEq] at hfg
      subst hfg
      simp
    · simp only [findGroup, hk, if_neg, if_false] at hfg
      exact List.mem_cons_of_mem _ (ih hfg)

theorem mem_findGroup_of_nodup (acc : List (Json × List Json))
    (hnd : (acc.map Prod.fst).Nodup) (e : Json × List Json) (he : e ∈ acc) :
    findGroup acc e.1 = some e.2 := by
  induction acc with
  | nil => cases he
  | cons e' rest ih =>
    obtain ⟨k, v⟩ := e'
    simp only [List.map_cons, List.nodup_cons] at hnd
    rcases List.mem_cons.mp he with rfl | hmem
    · simp [findGroup]
    · have hkne : k ≠ e.1 := by
        intro hk
        exact hnd.1 (hk ▸ List.mem_map.mpr ⟨e, hmem, rfl⟩)
      simp only [findGroup, hkne, if_neg, if_false]
      exact ih hnd.2 hmem

theorem groupFoldE_spec (gens : List Json) (acc : List (Json × List Json))
    (hwf : ∀ g ∈ gens, fallbackWF g = true)
    (hnd : (acc.map Prod.fst).Nodup) :
    ∃ res, groupFoldE acc gens = .ok res ∧
      (res.map Prod.fst).Nodup ∧
      ∀ h, findGroup res h =
        (match findGroup acc h with
         | some ms => some (ms ++ gens.filter (fun g => hashOfD g = h))
         | none =>
           if (gens.filter (fun g => hashOfD g = h)).isEmpty then none
           else some (gens.filter (fun g => hashOfD g = h))) := by
  induction gens generalizing acc with
  | nil =>
    refine ⟨acc, rfl, hnd, fun h => ?_⟩
    cases hfg : findGroup acc h <;> simp
  | cons g gs ih =>
    obtain ⟨hok, hhash⟩ := hashOf_of_WF g (hwf g (by simp))
    obtain ⟨res, hfold, hndres, hspec⟩ :=
      ih (groupInsert acc (hashOfD g) g)
        (fun g' hg' => hwf g' (by simp [hg']))
        (groupInsert_keys_nodup acc (hashOfD g) g hnd)
    refine ⟨res, ?_, hndres, ?_⟩
    · simp only [groupFoldE, hok, hhash, if_pos, hfold]
    · intro h
      rw [hspec h, findGroup_groupInsert]
      by_cases hh : hashOfD g = h
      · subst hh
        simp only [List.filter_cons, decide_True, if_pos, eq_self_iff_true,
          if_true]
        cases hacc : findGroup acc (hashOfD g) with
        | some ms => simp
        | none => simp
      · have hne : ¬ h = hashOfD g := fun he => hh he.symm
        rw [if_neg hne]
        simp only [List.filter_cons, hh, decide_False]
        cases hacc : findGroup acc h <;> simp

/-- C8: on a well-shaped catalog the fallback path groups records by
`prompt_info.hash` (records lacking a hash share the `"unknown"` bucket,
which `hashOfD` makes explicit), each surviving group holds exactly the
catalog's records with that hash in source order, every group with fewer
than 2 members is discarded and none other, and the group's display prompt
is its first member's prompt text. -/
theorem fallbackGroupByPromptHash_spec (gens : List Json)
    (hwf : ∀ g ∈ gens, fallbackWF g = true) :
    ∃ grps, fallbackGroups gens = .ok grps ∧
      (grps.map Prod.fst).Nodup ∧
      (∀ h ms, (h, ms) ∈ grps →
        ms = gens.filter (fun g => hashOfD g = h) ∧ 2 ≤ ms.length ∧
        ∃ g0 rest, ms = g0 :: rest ∧
          groupDisplayPrompt ms = promptTextD g0) ∧
      (∀ h : Json, 2 ≤ (gens.filter (fun g => hashOfD g = h)).length →
        (h, gens.filter (fun g => hashOfD g = h)) ∈ grps) := by
  obtain ⟨res, hfold, hndres, hspec⟩ :=
    groupFoldE_spec gens [] hwf (by simp)
  have hspec' : ∀ h, findGroup res h =
      (if (gens.filter (fun g => hashOfD g = h)).isEmpty then none
       else some (gens.filter (fun g => hashOfD g = h))) := by
    intro h
    rw [hspec h]
    rfl
  refine ⟨res.filter (fun e => 1 < e.2.length), ?_, ?_, ?_, ?_⟩
  · simp only [fallbackGroups, hfold]
  · exact hndres.sublist ((List.filter_sublist res).map Prod.fst)
  · intro h ms hmem
    have hres : (h, ms) ∈ res := List.mem_of_mem_filter hmem
    have hlen : 1 < ms.length := by
      have := List.of_mem_filter hmem
      simpa using this
    have hfg : findGroup res h = some ms :=
      mem_findGroup_of_nodup res hndres (h, ms) hres
    rw [hspec' h] at hfg
    by_cases hemp : (gens.filter (fun g => hashOfD g = h)).isEmpty
    · rw [if_pos hemp] at hfg
      cases hfg
    · rw [if_neg hemp, Option.some.injEq] at hfg
      obtain ⟨g0, rest, hms⟩ : ∃ g0 rest, ms = g0 :: rest := by
        cases ms with
        | nil => simp at hlen
        | cons g0 rest => exact ⟨g0, rest, rfl⟩
      exact ⟨hfg.symm, hlen, g0, rest, hms, by rw [hms]; rfl⟩
  · intro h hlen
    have hne : (gens.filter (fun g => hashOfD g = h)).isEmpty = false := by
      cases hf : gens.filter (fun g => hashOfD g = h) with
      | nil => rw [hf] at hlen; simp at hlen
      | cons a l => rfl
    have hfg : findGroup res h =
        some (gens.filter (fun g => hashOfD g = h)) := by
      rw [hspec' h, hne]
      simp
    have hres := findGroup_mem res h _ hfg
    exact List.mem_filter.mpr ⟨hres, by simpa using hlen⟩

/-- A record with hash "h1" and a prompt text. -/
def recH1a : Json :=
  .obj (.cons "prompt_info" (.obj (.cons "hash" (.str "h1")
    (.cons "original" (.str "two bedrooms") .nil))) .nil)

/-- A second record with hash "h1". -/
def recH1b : Json :=
  .obj (.cons "prompt_info" (.obj (.cons "hash" (.str "h1") .nil)) .nil)

/-- A lone record with hash "h2". -/
def recH2 : Json :=
  .obj (.cons "prompt_info" (.obj (.cons "hash" (.str "h2") .nil)) .nil)

/-- Witness for C8: two records sharing hash "h1" and one with "h2" produce
exactly one group, for "h1", with 2 members; the "h2" singleton is dropped;
the display prompt is the first member's prompt text. -/
theorem fallbackGroupByPromptHash_witness :
    fallbackGroups [recH1a, recH1b, recH2] =
      .ok [(.str "h1", [recH1a, recH1b])] ∧
    groupDisplayPrompt [recH1a, recH1b] = "two bedrooms" := by
  have h := fallbackGroupByPromptHash_spec [recH1a, recH1b, recH2] (by decide)
  exact ⟨by rfl, by rfl⟩

end Gallery
